import Mathlib

/-!
Verification development for the embeddings-for-trees repository.

Part 1 embeds the AST-to-canonical-tree builder of
`data_module/jsonl_dataset.py` (`JsonlDataset.__getitem__` and
`JsonlDataset._is_suitable_tree`).

Part 2 embeds the Tree-LSTM cell family of `model/treeLSTM_cell.py`
(`_ITreeLSTMCell` and its concrete subclasses).
-/

namespace EmbTrees

/-- Modelled from the spec: the subtoken/sublabel delimiter `SEPARATOR`
is defined in `utils/common.py`, which is not part of the provided
sources; the spec's input format section shows tokens and labels joined
with a vertical bar (a one-character separator). -/
def SEPARATOR : Char := '|'

/-- Python `str.split(sep)` for a one-character separator: split on
every occurrence, keeping empty pieces (an empty string yields one
empty piece). -/
def splitAux (sep : Char) : List Char → List Char → List String
  | [], acc => [String.mk acc.reverse]
  | c :: rest, acc =>
      if c = sep then String.mk acc.reverse :: splitAux sep rest []
      else splitAux sep rest (c :: acc)

/-- Python `s.split(sep)`. -/
def pySplit (s : String) (sep : Char) : List String :=
  splitAux sep s.toList []

/-- The empty-token sentinel carried by internal AST nodes, written
literally in the assert of `JsonlDataset.__getitem__`. -/
def EMPTY_TOKEN : String := "<EMPTY>"

/-- One raw AST node of an input document: `token`, `type` and an
optional `children` list, as read from a JSONL record. -/
structure RawNode where
  token : String
  typeLabel : String
  children : Option (List Nat)
deriving DecidableEq, Repr

/-- Python exceptions that `JsonlDataset.__getitem__` can raise while
building one sample (none of them is caught inside the method). -/
inductive BuildErr where
  /-- The assert "internal node has non empty token" fails. -/
  | invariantViolation
  /-- A leaf's id is missing from `node_to_parent` (`KeyError`). -/
  | keyError
  /-- Unpacking `zip(*[])` when no node has a parent (`ValueError`). -/
  | valueError
  /-- The node-feature tensors do not match the graph's node count. -/
  | shapeError
deriving DecidableEq, Repr

/-- Results of fallible build steps are compared in witnesses. -/
instance {ε α : Type} [DecidableEq ε] [DecidableEq α] : DecidableEq (Except ε α) := fun a b =>
  match a, b with
  | .error x, .error y =>
      if h : x = y then .isTrue (h ▸ rfl) else .isFalse (fun hh => h (Except.error.inj hh))
  | .ok x, .ok y =>
      if h : x = y then .isTrue (h ▸ rfl) else .isFalse (fun hh => h (Except.ok.inj hh))
  | .error _, .ok _ => .isFalse (fun hh => Except.noConfusion hh)
  | .ok _, .error _ => .isFalse (fun hh => Except.noConfusion hh)

/-- A canonical node: `(subtoken, type label, parent index)`.  The
vocabulary id lookup applied afterwards is an external collaborator. -/
abbrev CanonNode := String × String × Option Nat

/-- The `node_to_parent` Python dict: assignment conses a binding, and
lookup takes the most recent one, so later assignments overwrite. -/
abbrev ParentMap := List (Nat × Nat)

/-- Lookup in the child-to-parent map (`node_to_parent.get`/`[]`). -/
def lookupMap (m : ParentMap) (k : Nat) : Option Nat :=
  (m.find? (fun e => e.1 == k)).map (fun e => e.2)

/-- The loop `for c in node[CHILDREN]: node_to_parent[c] = len(nodes)`. -/
def registerChildren (cs : List Nat) (idx : Nat) (m : ParentMap) : ParentMap :=
  cs.foldl (fun acc c => (c, idx) :: acc) m

/-- One iteration of the node loop in `JsonlDataset.__getitem__`
(lines 76-88), for the node with AST id `nId`.  For an internal node
the code first registers itself as parent of its declared children and
only then resolves its own parent from the (already updated) map. -/
def buildStep (cap : Nat) (st : ParentMap × List CanonNode) (nId : Nat) (node : RawNode) :
    Except BuildErr (ParentMap × List CanonNode) :=
  match node.children with
  | some cs =>
      if node.token ≠ EMPTY_TOKEN then .error .invariantViolation
      else
        let m := registerChildren cs st.2.length st.1
        let parent := lookupMap m nId
        .ok (m, st.2 ++ [(node.token, node.typeLabel, parent)])
  | none =>
      match lookupMap st.1 nId with
      | none => .error .keyError
      | some p =>
          let subtokens := (pySplit node.token SEPARATOR).take cap
          .ok (st.1, st.2 ++ subtokens.map (fun s => (s, node.typeLabel, some p)))

/-- The node loop `for n_id, node in enumerate(ast)`, starting at AST
id `i` with accumulated state `st`. -/
def processAux (cap : Nat) (st : ParentMap × List CanonNode) (i : Nat) :
    List RawNode → Except BuildErr (ParentMap × List CanonNode)
  | [] => .ok st
  | node :: rest =>
      match buildStep cap st i node with
      | .error e => .error e
      | .ok st' => processAux cap st' (i + 1) rest

/-- The complete canonical-node construction of one document. -/
def buildNodes (cap : Nat) (ast : List RawNode) :
    Except BuildErr (ParentMap × List CanonNode) :=
  processAux cap ([], []) 0 ast

/-- The order the spec prescribes for one internal node: resolve the
node's own parent from the previously built map first, then register
the node as parent-of-record for its declared children.  Leaf handling
is unchanged.  This is the comparison definition for claim C1; only the
`some` branch differs from `buildStep`. -/
def buildStepSpec (cap : Nat) (st : ParentMap × List CanonNode) (nId : Nat) (node : RawNode) :
    Except BuildErr (ParentMap × List CanonNode) :=
  match node.children with
  | some cs =>
      if node.token ≠ EMPTY_TOKEN then .error .invariantViolation
      else
        let parent := lookupMap st.1 nId
        let m := registerChildren cs st.2.length st.1
        .ok (m, st.2 ++ [(node.token, node.typeLabel, parent)])
  | none =>
      match lookupMap st.1 nId with
      | none => .error .keyError
      | some p =>
          let subtokens := (pySplit node.token SEPARATOR).take cap
          .ok (st.1, st.2 ++ subtokens.map (fun s => (s, node.typeLabel, some p)))

/-- Node loop under the spec's resolve-before-register order. -/
def processAuxSpec (cap : Nat) (st : ParentMap × List CanonNode) (i : Nat) :
    List RawNode → Except BuildErr (ParentMap × List CanonNode)
  | [] => .ok st
  | node :: rest =>
      match buildStepSpec cap st i node with
      | .error e => .error e
      | .ok st' => processAuxSpec cap st' (i + 1) rest

/-- Canonical-node construction under the spec's order. -/
def buildNodesSpec (cap : Nat) (ast : List RawNode) :
    Except BuildErr (ParentMap × List CanonNode) :=
  processAuxSpec cap ([], []) 0 ast

/-- The edge comprehension of line 91: one `(child, parent)` pair per
canonical node that has a parent. -/
def builtEdges (nodes : List CanonNode) : List (Nat × Nat) :=
  nodes.enum.filterMap (fun p => p.2.2.2.map (fun par => (p.1, par)))

/-- Node count that `dgl.graph` infers from an edge list: one more
than the largest endpoint id. -/
def numNodesOfEdges (edges : List (Nat × Nat)) : Nat :=
  (edges.foldl (fun acc e => max acc (max e.1 e.2)) 0) + 1

/-- One layer of `dgl.topological_nodes_generator`: the remaining
nodes with no incoming edge from a remaining node (edges run from
child to parent, so these are the nodes whose children are done). -/
def frontierStep (edges : List (Nat × Nat)) (remaining : List Nat) : List Nat :=
  remaining.filter (fun v => !(edges.any (fun e => e.2 == v && remaining.contains e.1)))

/-- Fuelled frontier generation; on an acyclic graph the fuel (the node
count) is never exhausted.  (On a cyclic graph dgl raises instead;
none of our claims exercises that path.) -/
def frontiersAux (edges : List (Nat × Nat)) : Nat → List Nat → List (List Nat)
  | 0, _ => []
  | fuel + 1, remaining =>
      let f := frontierStep edges remaining
      if f.isEmpty then []
      else f :: frontiersAux edges fuel (remaining.filter (fun v => !(f.contains v)))

/-- `len(dgl.topological_nodes_generator(tree))`: the number of
frontiers of the graph with `n` nodes and the given edge list. -/
def frontierCount (n : Nat) (edges : List (Nat × Nat)) : Nat :=
  (frontiersAux edges n (List.range n)).length

/-- One guard of `_is_suitable_tree`: `limit is not None and v > limit`. -/
def exceedsLimit (limit : Option Nat) (v : Nat) : Bool :=
  match limit with
  | some m => v > m
  | none => false

/-- `JsonlDataset._is_suitable_tree` (lines 46-54): reject when the
node count exceeds `max_tree_nodes`, then when the frontier count
exceeds `max_tree_depth`; a `None` limit never rejects. -/
def isSuitableTree (maxNodes maxDepth : Option Nat) (nNodes nFrontiers : Nat) : Bool :=
  if exceedsLimit maxNodes nNodes then false
  else if exceedsLimit maxDepth nFrontiers then false
  else true

/-- The graph object returned to the caller: node count, child-to-parent
edge list, and the per-node raw features later mapped to vocabulary ids. -/
structure SampleGraph where
  numNodes : Nat
  edges : List (Nat × Nat)
  nodes : List CanonNode
deriving DecidableEq, Repr

/-- The configuration fields of the dataset that the builder reads. -/
structure DataConfig where
  maxTokenParts : Nat
  maxTreeNodes : Option Nat
  maxTreeDepth : Option Nat
deriving DecidableEq, Repr

/-- The tree-building portion of `JsonlDataset.__getitem__` (lines
72-101): build the canonical nodes, derive the edges, reject (return
`None`) an unsuitable tree, and otherwise return the graph with its
per-node features.  `.error` models an uncaught Python exception. -/
def getItemTree (cfg : DataConfig) (ast : List RawNode) : Except BuildErr (Option SampleGraph) :=
  match buildNodes cfg.maxTokenParts ast with
  | .error e => .error e
  | .ok st =>
      let nodes := st.2
      let edges := builtEdges nodes
      if edges = [] then .error .valueError
      else
        let n := numNodesOfEdges edges
        if !(isSuitableTree cfg.maxTreeNodes cfg.maxTreeDepth n (frontierCount n edges)) then
          .ok none
        else if n ≠ nodes.length then .error .shapeError
        else .ok (some ⟨n, edges, nodes⟩)

/-- Number of canonical nodes with no parent (candidate roots) of a
returned sample graph. -/
def rootCount (g : SampleGraph) : Nat :=
  ((List.range g.numNodes).filter (fun v => !(g.edges.any (fun e => e.1 == v)))).length

/-- Number of internal nodes (nodes with a `children` field) of a
document. -/
def internalCount : List RawNode → Nat
  | [] => 0
  | n :: rest => (if n.children.isSome then 1 else 0) + internalCount rest

/-- Sum over leaves of `min(#subtokens, max_token_parts)`. -/
def leafSubtokenSum (cap : Nat) : List RawNode → Nat
  | [] => 0
  | n :: rest =>
      (if n.children.isNone then min (pySplit n.token SEPARATOR).length cap else 0) +
        leafSubtokenSum cap rest

/-! ### Part 2: the Tree-LSTM cell family (`model/treeLSTM_cell.py`)

Tensors are embedded as functions out of `Fin`, weight matrices as
Mathlib matrices, and the componentwise nonlinearities `torch.sigmoid`
and `torch.tanh` as abstract scalar functions `σ` and `τ` applied
pointwise, over an arbitrary commutative ring of exact scalars. -/

/-- A dense vector of length `n`. -/
abbrev Vec (n : Nat) (K : Type) := Fin n → K

variable {xs hs : Nat} {K : Type} [CommRing K]

/-- Componentwise application of a scalar function (torch unary ops). -/
def cmap (f : K → K) (v : Vec hs K) : Vec hs K := fun j => f (v j)

/-- Componentwise product (torch `*` on equal-shaped tensors). -/
def hadamard (a b : Vec hs K) : Vec hs K := fun j => a j * b j

/-- Sum of a list of vectors (torch.sum over the mailbox dimension). -/
def sumVec (l : List (Vec hs K)) : Vec hs K := l.foldr (fun a b => a + b) 0

/-- The three `h`-sized chunks of an `iou` tensor (`torch.chunk(iou, 3, 1)`
splits the input/output/update projections). -/
structure IouV (hs : Nat) (K : Type) where
  i : Vec hs K
  o : Vec hs K
  u : Vec hs K

/-- Chunkwise sum of `iou` tensors. -/
def IouV.add (a b : IouV hs K) : IouV hs K := ⟨a.i + b.i, a.o + b.o, a.u + b.u⟩

/-- The zero `iou` tensor. -/
def IouV.zero : IouV hs K := ⟨0, 0, 0⟩

/-- Sum of a list of `iou` tensors. -/
def sumIou (l : List (IouV hs K)) : IouV hs K := l.foldr IouV.add IouV.zero

/-- The gate-sum pair a node carries into `apply_node_func`: the summed
`Uh` contributions (`Uh_sum`) and the summed forget-gated cell
contributions (`fc_sum`). -/
structure Sums (hs : Nat) (K : Type) where
  uh : IouV hs K
  fc : Vec hs K

/-- The zero initialisation `_init_matrices` writes into `Uh_sum` and
`fc_sum` (lines 56-57). -/
def Sums.zero : Sums hs K := ⟨IouV.zero, 0⟩

/-- DGL reduce semantics: the reduce function runs only on nodes whose
mailbox is non-empty; a node with no in-edges keeps the zero
initialisation of `Uh_sum`/`fc_sum`. -/
def dglReduceOrZero {μ : Type} (red : List μ → Sums hs K) : List μ → Sums hs K
  | [] => Sums.zero
  | m :: ms => red (m :: ms)

/-- Parameters shared by every cell through `_ITreeLSTMCell.__init__`:
the chunks of `W_iou`/`b_iou` and the forget projection `W_f`/`b_f`. -/
structure BaseParams (xs hs : Nat) (K : Type) where
  wI : Matrix (Fin hs) (Fin xs) K
  wO : Matrix (Fin hs) (Fin xs) K
  wU : Matrix (Fin hs) (Fin xs) K
  bI : Vec hs K
  bO : Vec hs K
  bU : Vec hs K
  wF : Matrix (Fin hs) (Fin xs) K
  bF : Vec hs K

/-- `graph.ndata['x_iou'] = self.W_iou(graph.ndata['x']) + self.b_iou`
of `_init_matrices`, per node. -/
def xIou (p : BaseParams xs hs K) (x : Vec xs K) : IouV hs K :=
  ⟨p.wI.mulVec x + p.bI, p.wO.mulVec x + p.bO, p.wU.mulVec x + p.bU⟩

/-- `graph.ndata['x_f'] = self.W_f(graph.ndata['x']) + self.b_f`. -/
def xF (p : BaseParams xs hs K) (x : Vec xs K) : Vec hs K :=
  p.wF.mulVec x + p.bF

/-- `_ITreeLSTMCell.apply_node_func` (lines 28-36): gate the summed
projections and produce the node's new `(h, c)` state. -/
def applyNodeFunc (σ τ : K → K) (xiou uhSum : IouV hs K) (fcSum : Vec hs K) :
    Vec hs K × Vec hs K :=
  let i := cmap σ (xiou.i + uhSum.i)
  let o := cmap σ (xiou.o + uhSum.o)
  let u := cmap τ (xiou.u + uhSum.u)
  let c := hadamard i u + fcSum
  (hadamard o (cmap τ c), c)

/-- The child-state transforms owned by both Child-Sum cells: the three
chunks of the bias-free `U_iou` and the bias-free `U_f`. -/
structure ChildSumU (hs : Nat) (K : Type) where
  uI : Matrix (Fin hs) (Fin hs) K
  uO : Matrix (Fin hs) (Fin hs) K
  uU : Matrix (Fin hs) (Fin hs) K
  uF : Matrix (Fin hs) (Fin hs) K

/-- `EdgeChildSumTreeLSTMCell.message_func` (lines 71-78): the per-edge
payload from one child state `(h, c)` toward a parent with forget
projection `xf`. -/
def edgeChildSumMessage (σ : K → K) (u : ChildSumU hs K) (xf : Vec hs K)
    (hc : Vec hs K × Vec hs K) : IouV hs K × Vec hs K :=
  let f := cmap σ (xf + u.uF.mulVec hc.1)
  (⟨u.uI.mulVec hc.1, u.uO.mulVec hc.1, u.uU.mulVec hc.1⟩, hadamard hc.2 f)

/-- The builtin reduce `[fn.sum('Uh', 'Uh_sum'), fn.sum('fc', 'fc_sum')]`
applied to the per-edge messages of `EdgeChildSumTreeLSTMCell`. -/
def edgeChildSumReduce (σ : K → K) (u : ChildSumU hs K) (xf : Vec hs K)
    (mb : List (Vec hs K × Vec hs K)) : Sums hs K :=
  let msgs := mb.map (edgeChildSumMessage σ u xf)
  ⟨sumIou (msgs.map (fun m => m.1)), sumVec (msgs.map (fun m => m.2))⟩

/-- Gate sums of `EdgeChildSumTreeLSTMCell` under DGL semantics. -/
def edgeChildSumSums (σ : K → K) (u : ChildSumU hs K) (xf : Vec hs K)
    (mb : List (Vec hs K × Vec hs K)) : Sums hs K :=
  dglReduceOrZero (edgeChildSumReduce σ u xf) mb

/-- `NodeChildSumTreeLSTMCell.reduce_func` (lines 120-124): sum the
children's hidden states first, project the sum once, and gate each
child's cell state. -/
def nodeChildSumReduce (σ : K → K) (u : ChildSumU hs K) (xf : Vec hs K)
    (mb : List (Vec hs K × Vec hs K)) : Sums hs K :=
  let hTilda := sumVec (mb.map (fun hc => hc.1))
  let fc := sumVec (mb.map (fun hc => hadamard (cmap σ (u.uF.mulVec hc.1 + xf)) hc.2))
  ⟨⟨u.uI.mulVec hTilda, u.uO.mulVec hTilda, u.uU.mulVec hTilda⟩, fc⟩

/-- Gate sums of `NodeChildSumTreeLSTMCell` under DGL semantics. -/
def nodeChildSumSums (σ : K → K) (u : ChildSumU hs K) (xf : Vec hs K)
    (mb : List (Vec hs K × Vec hs K)) : Sums hs K :=
  dglReduceOrZero (nodeChildSumReduce σ u xf) mb

/-- Full per-node update of `EdgeChildSumTreeLSTMCell`: gate sums from
the mailbox, then the shared apply step. -/
def edgeChildSumNode (σ τ : K → K) (p : BaseParams xs hs K) (u : ChildSumU hs K)
    (x : Vec xs K) (mb : List (Vec hs K × Vec hs K)) : Vec hs K × Vec hs K :=
  let s := edgeChildSumSums σ u (xF p x) mb
  applyNodeFunc σ τ (xIou p x) s.uh s.fc

/-- Full per-node update of `NodeChildSumTreeLSTMCell`. -/
def nodeChildSumNode (σ τ : K → K) (p : BaseParams xs hs K) (u : ChildSumU hs K)
    (x : Vec xs K) (mb : List (Vec hs K × Vec hs K)) : Vec hs K × Vec hs K :=
  let s := nodeChildSumSums σ u (xF p x) mb
  applyNodeFunc σ τ (xIou p x) s.uh s.fc

/-- A canonical tree as consumed by `dgl.prop_nodes_topo`: every node
carries its input features and its list of children. -/
inductive PTree (xs : Nat) (K : Type) where
  | node (x : Vec xs K) (children : List (PTree xs K))

mutual
/-- Bottom-up propagation of `dgl.prop_nodes_topo`: a node's state is
computed by the per-node update from its children's already-computed
states (the frontier schedule guarantees exactly this order). -/
def propagate (upd : Vec xs K → List (Vec hs K × Vec hs K) → Vec hs K × Vec hs K) :
    PTree xs K → Vec hs K × Vec hs K
  | .node x cs => upd x (propagateList upd cs)

/-- States of a list of sibling subtrees. -/
def propagateList (upd : Vec xs K → List (Vec hs K × Vec hs K) → Vec hs K × Vec hs K) :
    List (PTree xs K) → List (Vec hs K × Vec hs K)
  | [] => []
  | t :: ts => propagate upd t :: propagateList upd ts
end

/-! ### Edge-type-specific and type-specific variants -/

/-- The per-edge transforms of `EdgeSpecificTreeLSTMCell` and
`TypeSpecificTreeLSTMCell`: the parameter tensors `U_iou` (chunked)
and `U_f` hold one matrix per allocated slot, indexed by `matrix_id`. -/
structure SlotU (hs : Nat) (K : Type) where
  uI : Nat → Matrix (Fin hs) (Fin hs) K
  uO : Nat → Matrix (Fin hs) (Fin hs) K
  uU : Nat → Matrix (Fin hs) (Fin hs) K
  uF : Nat → Matrix (Fin hs) (Fin hs) K

/-- `EdgeSpecificTreeLSTMCell.message_func` (lines 182-193): the child
state travels through the matrices selected by the edge's `matrix_id`. -/
def edgeSpecificMessage (σ : K → K) (u : SlotU hs K) (xf : Vec hs K)
    (m : Vec hs K × Vec hs K × Nat) : IouV hs K × Vec hs K :=
  let f := cmap σ (xf + (u.uF m.2.2).mulVec m.1)
  (⟨(u.uI m.2.2).mulVec m.1, (u.uO m.2.2).mulVec m.1, (u.uU m.2.2).mulVec m.1⟩,
    hadamard m.2.1 f)

/-- Builtin sum reduce over the per-edge messages of
`EdgeSpecificTreeLSTMCell`. -/
def edgeSpecificReduce (σ : K → K) (u : SlotU hs K) (xf : Vec hs K)
    (mb : List (Vec hs K × Vec hs K × Nat)) : Sums hs K :=
  let msgs := mb.map (edgeSpecificMessage σ u xf)
  ⟨sumIou (msgs.map (fun m => m.1)), sumVec (msgs.map (fun m => m.2))⟩

/-- Gate sums of `EdgeSpecificTreeLSTMCell` under DGL semantics. -/
def edgeSpecificSums (σ : K → K) (u : SlotU hs K) (xf : Vec hs K)
    (mb : List (Vec hs K × Vec hs K × Nat)) : Sums hs K :=
  dglReduceOrZero (edgeSpecificReduce σ u xf) mb

/-- `TypeSpecificTreeLSTMCell.message_func` (lines 260-271); its body
coincides with the edge-specific one. -/
def typeSpecificMessage (σ : K → K) (u : SlotU hs K) (xf : Vec hs K)
    (m : Vec hs K × Vec hs K × Nat) : IouV hs K × Vec hs K :=
  let f := cmap σ (xf + (u.uF m.2.2).mulVec m.1)
  (⟨(u.uI m.2.2).mulVec m.1, (u.uO m.2.2).mulVec m.1, (u.uU m.2.2).mulVec m.1⟩,
    hadamard m.2.1 f)

/-- Builtin sum reduce over the per-edge messages of
`TypeSpecificTreeLSTMCell`. -/
def typeSpecificReduce (σ : K → K) (u : SlotU hs K) (xf : Vec hs K)
    (mb : List (Vec hs K × Vec hs K × Nat)) : Sums hs K :=
  let msgs := mb.map (typeSpecificMessage σ u xf)
  ⟨sumIou (msgs.map (fun m => m.1)), sumVec (msgs.map (fun m => m.2))⟩

/-- Gate sums of `TypeSpecificTreeLSTMCell` under DGL semantics. -/
def typeSpecificSums (σ : K → K) (u : SlotU hs K) (xf : Vec hs K)
    (mb : List (Vec hs K × Vec hs K × Nat)) : Sums hs K :=
  dglReduceOrZero (typeSpecificReduce σ u xf) mb

/-! #### Matrix-slot tables -/

/-- The innermost loops of `EdgeSpecificTreeLSTMCell.__init__`
(lines 173-176): record `(src_id, child_id) -> v` for every `child_id`
of one destination group and every `src_id` of the entry's key.  A dict
assignment conses, and lookup takes the most recent binding. -/
def insertGroup (srcIds childIds : List Nat) (v : Nat)
    (t : List ((Nat × Nat) × Nat)) : List ((Nat × Nat) × Nat) :=
  childIds.foldl (fun t2 childId =>
    srcIds.foldl (fun t3 srcId => ((srcId, childId), v) :: t3) t2) t

/-- `EdgeSpecificTreeLSTMCell.__init__` (lines 169-177): build
`edge_matrix_id` from `type_relationship`, allocating one fresh slot id
per destination group, starting from 1 (slot 0 is the default).
Returns the table together with `count_diff_matrix`. -/
def buildEdgeTable (rel : List (List Nat × List (List Nat))) :
    List ((Nat × Nat) × Nat) × Nat :=
  rel.foldl (fun st entry =>
    entry.2.foldl (fun st2 g => (insertGroup entry.1 g st2.2 st2.1, st2.2 + 1)) st)
    ([], 1)

/-- `self.edge_matrix_id.get((src_type, dst_type), 0)` of
`EdgeSpecificTreeLSTMCell.forward` (line 207). -/
def edgeMatrixId (t : List ((Nat × Nat) × Nat)) (k : Nat × Nat) : Nat :=
  ((t.find? (fun e => e.1 == k)).map (fun e => e.2)).getD 0

/-- Python `sorted` on a list of ints (ascending, stable). -/
def sortNat (l : List Nat) : List Nat :=
  l.insertionSort (fun a b => a ≤ b)

/-- `TypeSpecificTreeLSTMCell.__init__` (lines 246-255): build the
nested `edge_matrix_id` from `nary_types`.  For each entry a block of
`len(dst_type_ids[0])` fresh slot ids is allocated and recorded under
the sorted version of every destination tuple.  (On an entry with an
empty group list the source raises an IndexError at `dst_type_ids[0]`;
the claims only concern entries with at least one group.) -/
def naryHeadLen : List (List Nat) → Nat
  | [] => 0
  | g :: _ => g.length

/-- Fold of `TypeSpecificTreeLSTMCell.__init__` building the nested
table and the final `count_diff_matrix`; see `naryHeadLen`. -/
def buildNaryTable (nary : List (Nat × List (List Nat))) :
    List (Nat × List (List Nat × List Nat)) × Nat :=
  nary.foldl (fun st entry =>
    ((entry.1,
      entry.2.map (fun dst => (sortNat dst, List.range' st.2 (naryHeadLen entry.2)))) :: st.1,
      st.2 + naryHeadLen entry.2))
    ([], 1)

/-- The slot ids `TypeSpecificTreeLSTMCell.forward` (lines 282-287)
assigns to the in-edges of one node: the key `key` is looked up in the
outer dict and the sorted children-type tuple in the inner dict; on
either miss the edges keep the zero initialisation of `matrix_id`. -/
def naryMatrixIds (tbl : List (Nat × List (List Nat × List Nat)))
    (key : Nat) (childTypes : List Nat) (nEdges : Nat) : List Nat :=
  match tbl.find? (fun e => e.1 == key) with
  | none => List.replicate nEdges 0
  | some e =>
      match e.2.find? (fun d => d.1 == sortNat childTypes) with
      | none => List.replicate nEdges 0
      | some d => d.2

/-- The per-node slot resolution exactly as `TypeSpecificTreeLSTMCell.forward`
performs it: the outer lookup key is `node`, the node's integer INDEX in
the graph (`for node in range(graph.number_of_nodes())` followed by
`if node in self.edge_matrix_id`). -/
def typeSpecificNodeIds (tbl : List (Nat × List (List Nat × List Nat)))
    (typeId : Nat → Nat) (node : Nat) (children : List Nat) : List Nat :=
  naryMatrixIds tbl node (children.map typeId) children.length

/-- Comparison definition following the spec's words for claim C2: the
transform-matrix slots for a node's incoming edges are selected by the
pair of the node's type id and the sorted tuple of its children's type
ids. -/
def typeSpecificNodeIdsSpec (tbl : List (Nat × List (List Nat × List Nat)))
    (typeId : Nat → Nat) (node : Nat) (children : List Nat) : List Nat :=
  naryMatrixIds tbl (typeId node) (children.map typeId) children.length

/-! ### Attention variants -/

/-- The extra parameters of `LuongAttentionTreeLSTMCell`: the chunks of
the bias-free `U_iou`, the bias-free `U_f`, the score projection `W_a`
and the score vector `v_a` (a bias-free linear map to one scalar). -/
structure LuongParams (xs hs : Nat) (F : Type) where
  uI : Matrix (Fin hs) (Fin hs) F
  uO : Matrix (Fin hs) (Fin hs) F
  uU : Matrix (Fin hs) (Fin hs) F
  uF : Matrix (Fin hs) (Fin hs) F
  wA : Matrix (Fin hs) (Fin (xs + hs)) F
  vA : Vec hs F

/-- `LuongAttentionTreeLSTMCell.reduce_func` (lines 322-352): softmax
the compatibility scores over the mailbox (`exp'` embeds the scalar
exponential), use them to mix the children's hidden states, and sum the
forget-gated cell states.  `σ` and `τ` embed `torch.sigmoid` and
`torch.tanh`. -/
def luongReduce {xs hs : Nat} {F : Type} [Field F] (σ τ exp' : F → F)
    (p : LuongParams xs hs F) (x : Vec xs F) (xf : Vec hs F)
    (mb : List (Vec hs F × Vec hs F)) : Sums hs F :=
  let scores := mb.map (fun hc =>
    Matrix.dotProduct p.vA (cmap τ (p.wA.mulVec (Fin.append x hc.1))))
  let denom := (scores.map exp').foldr (fun a b => a + b) 0
  let hAttn := sumVec ((mb.zip scores).map (fun m => (exp' m.2 / denom) • m.1.1))
  let fc := sumVec (mb.map (fun hc => hadamard (cmap σ (p.uF.mulVec hc.1 + xf)) hc.2))
  ⟨⟨p.uI.mulVec hAttn, p.uO.mulVec hAttn, p.uU.mulVec hAttn⟩, fc⟩

/-- Gate sums of `LuongAttentionTreeLSTMCell` under DGL semantics. -/
def luongSums {xs hs : Nat} {F : Type} [Field F] (σ τ exp' : F → F)
    (p : LuongParams xs hs F) (x : Vec xs F) (xf : Vec hs F)
    (mb : List (Vec hs F × Vec hs F)) : Sums hs F :=
  dglReduceOrZero (luongReduce σ τ exp' p x xf) mb

/-- The extra parameters of `MultiHeadAttentionTreeLSTMCell`: `U_iou`
and `U_f` both carry a bias here (`nn.Linear` default). -/
structure MultiHeadParams (hs : Nat) (K : Type) where
  uI : Matrix (Fin hs) (Fin hs) K
  uO : Matrix (Fin hs) (Fin hs) K
  uU : Matrix (Fin hs) (Fin hs) K
  ubI : Vec hs K
  ubO : Vec hs K
  ubU : Vec hs K
  uF : Matrix (Fin hs) (Fin hs) K
  uFb : Vec hs K

/-- `MultiHeadAttentionTreeLSTMCell.reduce_func` (lines 391-410): the
attention block (an externally specified function `attn` of the query
and the children's hidden states; its internals are irrelevant to the
claims) produces one attended vector from which the gate contributions
and the shared forget gate are derived. -/
def multiHeadReduce (σ : K → K) (attn : Vec xs K → List (Vec hs K) → Vec hs K)
    (p : MultiHeadParams hs K) (x : Vec xs K) (xf : Vec hs K)
    (mb : List (Vec hs K × Vec hs K)) : Sums hs K :=
  let hAttn := attn x (mb.map (fun hc => hc.1))
  let f := cmap σ (xf + (p.uF.mulVec hAttn + p.uFb))
  ⟨⟨p.uI.mulVec hAttn + p.ubI, p.uO.mulVec hAttn + p.ubO, p.uU.mulVec hAttn + p.ubU⟩,
    sumVec (mb.map (fun hc => hadamard hc.2 f))⟩

/-- Gate sums of `MultiHeadAttentionTreeLSTMCell` under DGL semantics. -/
def multiHeadSums (σ : K → K) (attn : Vec xs K → List (Vec hs K) → Vec hs K)
    (p : MultiHeadParams hs K) (x : Vec xs K) (xf : Vec hs K)
    (mb : List (Vec hs K × Vec hs K)) : Sums hs K :=
  dglReduceOrZero (multiHeadReduce σ attn p x xf) mb

/-! ### Per-variant apply steps

Every concrete cell class overrides `apply_node_func` by delegating to
`super().apply_node_func` (`_ITreeLSTMCell`), so each variant's apply
step is literally the base one. -/

/-- `EdgeChildSumTreeLSTMCell.apply_node_func` (lines 84-85). -/
def edgeChildSumApply (σ τ : K → K) (xiou uhSum : IouV hs K) (fcSum : Vec hs K) :
    Vec hs K × Vec hs K :=
  applyNodeFunc σ τ xiou uhSum fcSum

/-- `NodeChildSumTreeLSTMCell.apply_node_func` (lines 126-127). -/
def nodeChildSumApply (σ τ : K → K) (xiou uhSum : IouV hs K) (fcSum : Vec hs K) :
    Vec hs K × Vec hs K :=
  applyNodeFunc σ τ xiou uhSum fcSum

/-- `EdgeSpecificTreeLSTMCell.apply_node_func` (lines 198-199). -/
def edgeSpecificApply (σ τ : K → K) (xiou uhSum : IouV hs K) (fcSum : Vec hs K) :
    Vec hs K × Vec hs K :=
  applyNodeFunc σ τ xiou uhSum fcSum

/-- `TypeSpecificTreeLSTMCell.apply_node_func` (lines 276-277). -/
def typeSpecificApply (σ τ : K → K) (xiou uhSum : IouV hs K) (fcSum : Vec hs K) :
    Vec hs K × Vec hs K :=
  applyNodeFunc σ τ xiou uhSum fcSum

/-- `LuongAttentionTreeLSTMCell.apply_node_func` (lines 354-355). -/
def luongApply (σ τ : K → K) (xiou uhSum : IouV hs K) (fcSum : Vec hs K) :
    Vec hs K × Vec hs K :=
  applyNodeFunc σ τ xiou uhSum fcSum

/-- `MultiHeadAttentionTreeLSTMCell.apply_node_func` (lines 412-413). -/
def multiHeadApply (σ τ : K → K) (xiou uhSum : IouV hs K) (fcSum : Vec hs K) :
    Vec hs K × Vec hs K :=
  applyNodeFunc σ τ xiou uhSum fcSum

/-! ### Helper lemmas for the cell family -/

/-- Componentwise multiplication commutes. -/
lemma hadamard_comm (a b : Vec hs K) : hadamard a b = hadamard b a := by
  funext j
  exact mul_comm _ _

/-- Summing the chunked projections of the children's hidden states
equals projecting their sum, chunk by chunk (linearity of the bias-free
`U_iou`). -/
lemma sumIou_mulVec_pairs (M1 M2 M3 : Matrix (Fin hs) (Fin hs) K)
    (mb : List (Vec hs K × Vec hs K)) :
    sumIou (mb.map (fun hc =>
      (⟨M1.mulVec hc.1, M2.mulVec hc.1, M3.mulVec hc.1⟩ : IouV hs K))) =
    ⟨M1.mulVec (sumVec (mb.map (fun hc => hc.1))),
     M2.mulVec (sumVec (mb.map (fun hc => hc.1))),
     M3.mulVec (sumVec (mb.map (fun hc => hc.1)))⟩ := by
  induction mb with
  | nil =>
      simp [sumIou, sumVec, IouV.zero, Matrix.mulVec_zero]
  | cons v vs ih =>
      simp only [List.map_cons, sumIou, List.foldr_cons, sumVec] at *
      rw [ih]
      simp [IouV.add, Matrix.mulVec_add, sumVec]

/-- The reduce step of the two Child-Sum cells computes the same gate
sums on every non-empty mailbox (and trivially on the empty one). -/
lemma edgeChildSumReduce_eq_nodeChildSumReduce (σ : K → K) (u : ChildSumU hs K)
    (xf : Vec hs K) (mb : List (Vec hs K × Vec hs K)) :
    edgeChildSumReduce σ u xf mb = nodeChildSumReduce σ u xf mb := by
  unfold edgeChildSumReduce nodeChildSumReduce edgeChildSumMessage
  simp only [List.map_map, Function.comp_def]
  have hfc : (fun hc : Vec hs K × Vec hs K =>
      hadamard hc.2 (cmap σ (xf + u.uF.mulVec hc.1))) =
      (fun hc : Vec hs K × Vec hs K =>
        hadamard (cmap σ (u.uF.mulVec hc.1 + xf)) hc.2) := by
    funext hc
    rw [hadamard_comm, add_comm]
  rw [hfc, sumIou_mulVec_pairs]

/-- The two Child-Sum per-node updates agree on every node. -/
lemma edgeChildSumNode_eq_nodeChildSumNode (σ τ : K → K)
    (p : BaseParams xs hs K) (u : ChildSumU hs K) :
    edgeChildSumNode σ τ p u = nodeChildSumNode σ τ p u := by
  funext x mb
  unfold edgeChildSumNode nodeChildSumNode edgeChildSumSums nodeChildSumSums
  cases mb with
  | nil => rfl
  | cons m ms =>
      simp only [dglReduceOrZero]
      rw [edgeChildSumReduce_eq_nodeChildSumReduce]

/-! ### Claim theorems for the cell family -/

/-- C10: the two Child-Sum implementations are equivalent: for every
tree and identical weights, `EdgeChildSumTreeLSTMCell` (per-edge
message computation, builtin sum reduce) and `NodeChildSumTreeLSTMCell`
(copy message, computation in reduce) produce the same hidden and cell
state for every node, under exact arithmetic, by linearity of the
bias-free `U_iou` projection. -/
theorem claimC10_childSum_equivalent {xs hs : Nat} {K : Type} [CommRing K]
    (σ τ : K → K) (p : BaseParams xs hs K) (u : ChildSumU hs K) (t : PTree xs K) :
    propagate (edgeChildSumNode σ τ p u) t = propagate (nodeChildSumNode σ τ p u) t := by
  rw [edgeChildSumNode_eq_nodeChildSumNode]

/-- C8: for every leaf node (empty mailbox) and every cell variant, the
gate sum `Uh_sum` and cell sum `fc_sum` entering the apply step are
exactly the zero vectors (the `_init_matrices` initialisation, which
DGL never overwrites on a node without in-edges), so a leaf's resulting
hidden and cell state are a function of its own input projection only. -/
theorem claimC8_leaf_sums_zero {xs hs : Nat} {K : Type} [CommRing K] {F : Type} [Field F]
    (σ τ : K → K) (u : ChildSumU hs K) (us : SlotU hs K) (xf : Vec hs K)
    (σf τf expf : F → F) (lp : LuongParams xs hs F) (xl : Vec xs F) (xfl : Vec hs F)
    (attn : Vec xs K → List (Vec hs K) → Vec hs K) (mp : MultiHeadParams hs K)
    (p : BaseParams xs hs K) (x : Vec xs K) :
    edgeChildSumSums σ u xf [] = Sums.zero ∧
    nodeChildSumSums σ u xf [] = Sums.zero ∧
    edgeSpecificSums σ us xf [] = Sums.zero ∧
    typeSpecificSums σ us xf [] = Sums.zero ∧
    luongSums σf τf expf lp xl xfl [] = Sums.zero ∧
    multiHeadSums σ attn mp x xf [] = Sums.zero ∧
    propagate (edgeChildSumNode σ τ p u) (.node x []) =
      applyNodeFunc σ τ (xIou p x) IouV.zero 0 ∧
    propagate (nodeChildSumNode σ τ p u) (.node x []) =
      applyNodeFunc σ τ (xIou p x) IouV.zero 0 := by
  refine ⟨rfl, rfl, rfl, rfl, rfl, rfl, ?_, ?_⟩ <;>
    simp [propagate, propagateList, edgeChildSumNode, nodeChildSumNode,
      edgeChildSumSums, nodeChildSumSums, dglReduceOrZero, Sums.zero]

/-- C9: the apply step is the same function in every cell variant (each
subclass delegates to `_ITreeLSTMCell.apply_node_func`), and that shared
step computes the new cell state as sigmoid(input gate) ⊙ tanh(update
gate) + cell-sum and the new hidden state as sigmoid(output gate) ⊙
tanh(new cell state). -/
theorem claimC9_apply_identical {hs : Nat} {K : Type} [CommRing K] :
    (@edgeChildSumApply hs K _ = @applyNodeFunc hs K _) ∧
    (@nodeChildSumApply hs K _ = @applyNodeFunc hs K _) ∧
    (@edgeSpecificApply hs K _ = @applyNodeFunc hs K _) ∧
    (@typeSpecificApply hs K _ = @applyNodeFunc hs K _) ∧
    (@luongApply hs K _ = @applyNodeFunc hs K _) ∧
    (@multiHeadApply hs K _ = @applyNodeFunc hs K _) ∧
    ∀ (σ τ : K → K) (xiou uh : IouV hs K) (fc : Vec hs K),
      applyNodeFunc σ τ xiou uh fc =
        (hadamard (cmap σ (xiou.o + uh.o))
          (cmap τ (hadamard (cmap σ (xiou.i + uh.i)) (cmap τ (xiou.u + uh.u)) + fc)),
         hadamard (cmap σ (xiou.i + uh.i)) (cmap τ (xiou.u + uh.u)) + fc) :=
  ⟨rfl, rfl, rfl, rfl, rfl, rfl, fun _ _ _ _ _ => rfl⟩

/-! ### Helper lemmas for the matrix-slot tables -/

/-- Generic preservation of a predicate along a left fold. -/
lemma foldl_preserves {α β : Type} (P : β → Prop) (f : β → α → β)
    (h : ∀ b a, P b → P (f b a)) : ∀ (l : List α) (b : β), P b → P (l.foldl f b) := by
  intro l
  induction l with
  | nil => intro b hb; exact hb
  | cons a l ih => intro b hb; exact ih (f b a) (h b a hb)

/-- Every binding produced by `insertGroup` is an old one or carries
the slot id being inserted. -/
lemma mem_insertGroup (srcIds childIds : List Nat) (v : Nat)
    (t : List ((Nat × Nat) × Nat)) :
    ∀ kv ∈ insertGroup srcIds childIds v t, kv ∈ t ∨ kv.2 = v := by
  have inner : ∀ (src : List Nat) (c : Nat) (t2 : List ((Nat × Nat) × Nat)),
      ∀ kv ∈ src.foldl (fun t3 srcId => ((srcId, c), v) :: t3) t2, kv ∈ t2 ∨ kv.2 = v := by
    intro src
    induction src with
    | nil => intro c t2 kv hkv; exact Or.inl hkv
    | cons s src ih =>
        intro c t2 kv hkv
        rcases ih c (((s, c), v) :: t2) kv hkv with h | h
        · rcases List.mem_cons.mp h with h | h
          · exact Or.inr (by rw [h])
          · exact Or.inl h
        · exact Or.inr h
  unfold insertGroup
  induction childIds generalizing t with
  | nil => intro kv hkv; exact Or.inl hkv
  | cons c cs ih =>
      intro kv hkv
      simp only [List.foldl_cons] at hkv
      rcases ih _ kv hkv with h | h
      · exact inner _ _ _ kv h
      · exact Or.inr h

/-- Invariant of the edge-table construction: every recorded slot id is
below the running `count_diff_matrix`, which is at least 1. -/
def edgeTblInv (st : List ((Nat × Nat) × Nat) × Nat) : Prop :=
  (∀ kv ∈ st.1, kv.2 < st.2) ∧ 1 ≤ st.2

/-- The invariant holds for the finished edge-specific table. -/
lemma buildEdgeTable_inv (rel : List (List Nat × List (List Nat))) :
    edgeTblInv (buildEdgeTable rel) := by
  unfold buildEdgeTable
  refine foldl_preserves edgeTblInv _ ?_ rel ([], 1)
    ⟨(by intro kv h; cases h), le_refl 1⟩
  intro st entry hst
  refine foldl_preserves edgeTblInv _ ?_ entry.2 st hst
  intro st2 g hst2
  constructor
  · intro kv hkv
    rcases mem_insertGroup entry.1 g st2.2 st2.1 kv hkv with h | h
    · exact Nat.lt_succ_of_lt (hst2.1 kv h)
    · rw [h]; exact Nat.lt_succ_self _
  · exact Nat.le_succ_of_le hst2.2

/-- Invariant of the nary-table construction: every recorded slot id in
every stored index vector is below the running count, which is at
least 1. -/
def naryTblInv (st : List (Nat × List (List Nat × List Nat)) × Nat) : Prop :=
  (∀ e ∈ st.1, ∀ d ∈ e.2, ∀ i ∈ d.2, i < st.2) ∧ 1 ≤ st.2

/-- The invariant holds for the finished type-specific table. -/
lemma buildNaryTable_inv (nary : List (Nat × List (List Nat))) :
    naryTblInv (buildNaryTable nary) := by
  unfold buildNaryTable
  refine foldl_preserves naryTblInv _ ?_ nary ([], 1)
    ⟨(by intro e h; cases h), le_refl 1⟩
  intro st entry hst
  obtain ⟨hb, hc⟩ := hst
  constructor
  · intro e he d hd i hi
    show i < st.2 + naryHeadLen entry.2
    rcases List.mem_cons.mp he with h | h
    · subst h
      rcases List.mem_map.mp hd with ⟨dst, _, hdst⟩
      rw [← hdst] at hi
      have := (List.mem_range'_1.mp hi).2
      omega
    · have := hb e h d hd i hi
      omega
  · show 1 ≤ st.2 + naryHeadLen entry.2
    omega

/-! ### Claim theorems for the lookup tables -/

/-- C6: in the edge-type-specific and type-specific variants, a
`(src, dst)` type pair or children signature absent from the configured
table resolves to the default matrix index 0, and every resolved index
(default or not) is strictly below the number of allocated matrix
slots, so indexing the parameter tensors never goes out of range.  For
the type-specific table the default-fallback conjunct covers both miss
kinds: an absent outer source key and a configured source key whose
sorted children signature is absent from its inner dict. -/
theorem claimC6_lookup_default_in_range :
    (∀ (rel : List (List Nat × List (List Nat))) (k : Nat × Nat),
      edgeMatrixId (buildEdgeTable rel).1 k < (buildEdgeTable rel).2) ∧
    (∀ (rel : List (List Nat × List (List Nat))) (k : Nat × Nat),
      (∀ kv ∈ (buildEdgeTable rel).1, kv.1 ≠ k) →
        edgeMatrixId (buildEdgeTable rel).1 k = 0) ∧
    (∀ (nary : List (Nat × List (List Nat))) (key : Nat) (cts : List Nat) (n : Nat),
      ∀ i ∈ naryMatrixIds (buildNaryTable nary).1 key cts n, i < (buildNaryTable nary).2) ∧
    (∀ (nary : List (Nat × List (List Nat))) (key : Nat) (cts : List Nat) (n : Nat),
      (∀ e ∈ (buildNaryTable nary).1, e.1 = key → ∀ d ∈ e.2, d.1 ≠ sortNat cts) →
        naryMatrixIds (buildNaryTable nary).1 key cts n = List.replicate n 0) := by
  refine ⟨?_, ?_, ?_, ?_⟩
  · intro rel k
    have hinv := buildEdgeTable_inv rel
    unfold edgeMatrixId
    cases h : (buildEdgeTable rel).1.find? (fun e => e.1 == k) with
    | none => simpa using hinv.2
    | some kv =>
        have hmem := List.mem_of_find?_eq_some h
        simpa using hinv.1 kv hmem
  · intro rel k hk
    unfold edgeMatrixId
    have : (buildEdgeTable rel).1.find? (fun e => e.1 == k) = none := by
      rw [List.find?_eq_none]
      intro kv hkv
      simpa using hk kv hkv
    rw [this]
    rfl
  · intro nary key cts n i hi
    obtain ⟨hb, hc⟩ := buildNaryTable_inv nary
    unfold naryMatrixIds at hi
    split at hi
    · have := List.eq_of_mem_replicate hi
      omega
    · rename_i e h
      split at hi
      · have := List.eq_of_mem_replicate hi
        omega
      · rename_i d h2
        exact hb e (List.mem_of_find?_eq_some h) d (List.mem_of_find?_eq_some h2) i hi
  · intro nary key cts n hk
    cases h : (buildNaryTable nary).1.find? (fun e => e.1 == key) with
    | none =>
        unfold naryMatrixIds
        rw [h]
    | some e =>
        have hkey : e.1 = key := by simpa using List.find?_some h
        have hin : e.2.find? (fun d => d.1 == sortNat cts) = none := by
          rw [List.find?_eq_none]
          intro d hd
          simpa using hk e (List.mem_of_find?_eq_some h) hkey d hd
        unfold naryMatrixIds
        rw [h]
        show (match e.2.find? (fun d => d.1 == sortNat cts) with
              | none => List.replicate n 0
              | some d => d.2) = List.replicate n 0
        rw [hin]

/-- Witness for C6 on concrete tables: `type_relationship` maps the
pair `(1, 2)` to slot 1 of 2; the unseen pair `(9, 9)` resolves to the
default 0; `nary_types` maps type 7 with signature `(5)` to slot 1 of
2; the unseen outer key 9 resolves to the all-default vector, and so
does the configured key 7 with the unseen children signature `(6)`. -/
theorem claimC6_lookup_default_in_range_witness :
    edgeMatrixId (buildEdgeTable [([1], [[2]])]).1 (1, 2) < (buildEdgeTable [([1], [[2]])]).2 ∧
    edgeMatrixId (buildEdgeTable [([1], [[2]])]).1 (9, 9) = 0 ∧
    (∀ i ∈ naryMatrixIds (buildNaryTable [(7, [[5]])]).1 7 [5] 1,
      i < (buildNaryTable [(7, [[5]])]).2) ∧
    naryMatrixIds (buildNaryTable [(7, [[5]])]).1 9 [5] 1 = List.replicate 1 0 ∧
    naryMatrixIds (buildNaryTable [(7, [[5]])]).1 7 [6] 1 = List.replicate 1 0 :=
  ⟨claimC6_lookup_default_in_range.1 [([1], [[2]])] (1, 2),
   claimC6_lookup_default_in_range.2.1 [([1], [[2]])] (9, 9) (by decide),
   claimC6_lookup_default_in_range.2.2.1 [(7, [[5]])] 7 [5] 1,
   claimC6_lookup_default_in_range.2.2.2 [(7, [[5]])] 9 [5] 1 (by decide),
   claimC6_lookup_default_in_range.2.2.2 [(7, [[5]])] 7 [6] 1 (by decide)⟩

/-- C2 (code bug): at a graph whose root is node index 0 with type id 7
and a single child of type id 5, with `nary_types` containing exactly
the signature `(7, (5))`, the forward pass of
`TypeSpecificTreeLSTMCell` looks the outer table up with the node
INDEX 0, misses, and leaves the edge on the default slot 0 — whereas
selection by the node's type id, as the claim and the class's own
comment describe, yields the allocated slot 1. -/
theorem claimC2_node_index_lookup :
    typeSpecificNodeIds (buildNaryTable [(7, [[5]])]).1
      (fun v => if v = 0 then 7 else 5) 0 [1] = [0] ∧
    typeSpecificNodeIdsSpec (buildNaryTable [(7, [[5]])]).1
      (fun v => if v = 0 then 7 else 5) 0 [1] = [1] := by
  constructor <;> rfl

/-! ### Helper lemmas and concrete documents for the builder -/

/-- No node of the document lists itself among its own declared
children, checking the suffix that starts at AST id `i`. -/
def noSelfChildAux : Nat → List RawNode → Bool
  | _, [] => true
  | i, node :: rest =>
      (match node.children with
       | some cs => !(decide (i ∈ cs))
       | none => true) && noSelfChildAux (i + 1) rest

/-- No node of the document lists itself among its own children. -/
def noSelfChild (ast : List RawNode) : Bool :=
  noSelfChildAux 0 ast

/-- A cons binding for a different key does not change a lookup. -/
lemma lookupMap_cons_ne (c idx k : Nat) (m : ParentMap) (h : c ≠ k) :
    lookupMap ((c, idx) :: m) k = lookupMap m k := by
  unfold lookupMap
  rw [List.find?_cons_of_neg]
  simpa using h

/-- Registering children does not change the lookup of a key that is
not among them. -/
lemma lookupMap_registerChildren (cs : List Nat) (idx k : Nat) (m : ParentMap)
    (hk : ¬ k ∈ cs) :
    lookupMap (registerChildren cs idx m) k = lookupMap m k := by
  induction cs generalizing m with
  | nil => rfl
  | cons c cs ih =>
      have hck : c ≠ k := fun h => hk (h ▸ List.mem_cons_self c cs)
      have hk2 : ¬ k ∈ cs := fun h => hk (List.mem_cons_of_mem c h)
      unfold registerChildren at *
      rw [List.foldl_cons, ih ((c, idx) :: m) hk2, lookupMap_cons_ne c idx k m hck]

/-- On a node that does not declare itself as its own child, the
register-then-resolve order of the source agrees with the spec's
resolve-then-register order. -/
lemma buildStep_eq_spec (cap : Nat) (st : ParentMap × List CanonNode) (nId : Nat)
    (node : RawNode) (h : ∀ cs, node.children = some cs → ¬ nId ∈ cs) :
    buildStep cap st nId node = buildStepSpec cap st nId node := by
  cases hch : node.children with
  | none => simp [buildStep, buildStepSpec, hch]
  | some cs =>
      by_cases htok : node.token = EMPTY_TOKEN
      · simp [buildStep, buildStepSpec, hch, htok,
          lookupMap_registerChildren cs st.2.length nId st.1 (h cs hch)]
      · simp [buildStep, buildStepSpec, hch, htok]

/-- On a suffix with no self-children, the whole node loop agrees with
the spec's order. -/
lemma processAux_eq_spec (cap : Nat) :
    ∀ (l : List RawNode) (st : ParentMap × List CanonNode) (i : Nat),
      noSelfChildAux i l = true → processAux cap st i l = processAuxSpec cap st i l := by
  intro l
  induction l with
  | nil => intro st i _; rfl
  | cons node rest ih =>
      intro st i h
      unfold noSelfChildAux at h
      rw [Bool.and_eq_true] at h
      have hstep : buildStep cap st i node = buildStepSpec cap st i node := by
        refine buildStep_eq_spec cap st i node ?_
        intro cs hch
        rw [hch] at h
        simpa using h.1
      unfold processAux processAuxSpec
      rw [hstep]
      cases buildStepSpec cap st i node with
      | error e => rfl
      | ok st2 => exact ih st2 (i + 1) h.2

/-- Appending documents splits the node loop at the boundary. -/
lemma processAux_append (cap : Nat) :
    ∀ (pre l : List RawNode) (st : ParentMap × List CanonNode) (i : Nat),
      processAux cap st i (pre ++ l) =
        (match processAux cap st i pre with
         | .ok st2 => processAux cap st2 (i + pre.length) l
         | .error e => .error e) := by
  intro pre
  induction pre with
  | nil => intro l st i; rfl
  | cons node rest ih =>
      intro l st i
      cases hstep : buildStep cap st i node with
      | error e =>
          show (match buildStep cap st i node with
                | .error e => (.error e : Except BuildErr (ParentMap × List CanonNode))
                | .ok st2 => processAux cap st2 (i + 1) (rest ++ l)) = _
          rw [hstep]
          show Except.error e =
            (match (match buildStep cap st i node with
                    | .error e => (.error e : Except BuildErr (ParentMap × List CanonNode))
                    | .ok st2 => processAux cap st2 (i + 1) rest) with
             | .ok st2 => processAux cap st2 (i + (node :: rest).length) l
             | .error e => .error e)
          rw [hstep]
      | ok st2 =>
          show (match buildStep cap st i node with
                | .error e => (.error e : Except BuildErr (ParentMap × List CanonNode))
                | .ok st2 => processAux cap st2 (i + 1) (rest ++ l)) = _
          rw [hstep]
          show processAux cap st2 (i + 1) (rest ++ l) =
            (match (match buildStep cap st i node with
                    | .error e => (.error e : Except BuildErr (ParentMap × List CanonNode))
                    | .ok st2 => processAux cap st2 (i + 1) rest) with
             | .ok st3 => processAux cap st3 (i + (node :: rest).length) l
             | .error e => .error e)
          rw [hstep, ih l st2 (i + 1)]
          have harith : i + 1 + rest.length = i + (node :: rest).length := by
            simp [List.length_cons]
            omega
          rw [harith]

/-- The node loop adds one canonical node per internal node and
`min(#subtokens, cap)` canonical nodes per leaf. -/
lemma processAux_length (cap : Nat) :
    ∀ (l : List RawNode) (st : ParentMap × List CanonNode) (i : Nat)
      (out : ParentMap × List CanonNode),
      processAux cap st i l = .ok out →
      out.2.length = st.2.length + internalCount l + leafSubtokenSum cap l := by
  intro l
  induction l with
  | nil =>
      intro st i out h
      cases h
      simp [internalCount, leafSubtokenSum]
  | cons node rest ih =>
      intro st i out h
      unfold processAux at h
      cases hstep : buildStep cap st i node with
      | error e => rw [hstep] at h; cases h
      | ok st2 =>
          rw [hstep] at h
          have hrest := ih st2 (i + 1) out h
          cases hch : node.children with
          | some cs =>
              have hlen : st2.2.length = st.2.length + 1 := by
                by_cases htok : node.token = EMPTY_TOKEN
                · simp [buildStep, hch, htok] at hstep
                  rw [← hstep]
                  simp
                · simp [buildStep, hch, htok] at hstep
              simp only [internalCount, leafSubtokenSum, hch] at *
              simp at *
              omega
          | none =>
              have hlen : st2.2.length =
                  st.2.length + min (pySplit node.token SEPARATOR).length cap := by
                cases hlk : lookupMap st.1 i with
                | none => simp [buildStep, hch, hlk] at hstep
                | some p =>
                    simp [buildStep, hch, hlk] at hstep
                    rw [← hstep]
                    simp [Nat.min_comm]
              simp only [internalCount, leafSubtokenSum, hch] at *
              simp at *
              omega

/-- Boolean characterisation of `_is_suitable_tree` returning `False`. -/
lemma isSuitableTree_eq_false_iff (mn md : Option Nat) (n f : Nat) :
    isSuitableTree mn md n f = false ↔
      ((∃ m, mn = some m ∧ n > m) ∨ (∃ d, md = some d ∧ f > d)) := by
  cases mn with
  | none =>
      cases md with
      | none => simp [isSuitableTree, exceedsLimit]
      | some d =>
          by_cases h : f > d <;> simp [isSuitableTree, exceedsLimit, h]
  | some m =>
      cases md with
      | none =>
          by_cases h : n > m <;> simp [isSuitableTree, exceedsLimit, h]
      | some d =>
          by_cases h : n > m
          · simp [isSuitableTree, exceedsLimit, h]
          · by_cases h2 : f > d <;> simp [isSuitableTree, exceedsLimit, h, h2]

/-- The spec's concrete scenario: a root whose single leaf child
carries the composite token "a|b". -/
def astSpecScenario : List RawNode :=
  [⟨"<EMPTY>", "Root", some [1]⟩, ⟨"a|b", "Leaf", none⟩]

/-- A document whose canonical nodes contain two parentless nodes. -/
def astTwoRoots : List RawNode :=
  [⟨"<EMPTY>", "A", some [2]⟩, ⟨"<EMPTY>", "B", some [3]⟩,
   ⟨"x", "L", none⟩, ⟨"y", "L", none⟩]

/-- A document whose only node declares itself as its own child. -/
def astSelfChild : List RawNode :=
  [⟨"<EMPTY>", "T", some [0]⟩]

/-- An internal node carrying a non-sentinel token. -/
def badTokenNode : RawNode :=
  ⟨"bad", "T", some []⟩

/-- Canonical nodes the builder produces for `astTwoRoots`. -/
def twoRootsCanon : List CanonNode :=
  [("<EMPTY>", "A", none), ("<EMPTY>", "B", none), ("x", "L", some 0), ("y", "L", some 1)]

/-! ### Claim theorems for the builder -/

/-- C1 counterexample: on a document whose node 0 declares itself as
its own child, the builder (which registers the children first and
resolves its own parent afterwards) records `parent_index = some 0` —
an entry the node itself added — while resolving from the previously
built map would record no parent.  This refutes the claim that a node's
recorded `parent_index` never depends on entries the node itself added
to the map. -/
theorem claimC1_counterexample :
    buildNodes 5 astSelfChild = .ok ([(0, 0)], [("<EMPTY>", "T", some 0)]) ∧
    buildNodesSpec 5 astSelfChild = .ok ([(0, 0)], [("<EMPTY>", "T", none)]) := by
  constructor <;> rfl

/-- C1 amended: the builder registers a node as parent-of-record for
its declared children BEFORE resolving the node's own parent from the
map; for every document in which no node declares itself among its own
children, the result coincides with the spec's resolve-before-register
order (so the recorded parent then depends only on entries added by
previously processed nodes). -/
theorem claimC1_amended_register_first (cap : Nat) (ast : List RawNode)
    (h : noSelfChild ast = true) :
    buildNodes cap ast = buildNodesSpec cap ast :=
  processAux_eq_spec cap ast ([], []) 0 h

/-- Witness for the amended C1 on the spec's concrete scenario. -/
theorem claimC1_amended_witness :
    buildNodes 2 astSpecScenario = buildNodesSpec 2 astSpecScenario :=
  claimC1_amended_register_first 2 astSpecScenario (by decide)

/-- C3 counterexample: the builder performs no forest-shape validation.
The document `astTwoRoots` yields canonical nodes with TWO parentless
nodes, yet `__getitem__` returns it as an ordinary sample instead of
raising a fatal invariant violation. -/
theorem claimC3_counterexample :
    getItemTree ⟨5, none, none⟩ astTwoRoots =
      .ok (some ⟨4, [(2, 0), (3, 1)], twoRootsCanon⟩) ∧
    rootCount ⟨4, [(2, 0), (3, 1)], twoRootsCanon⟩ = 2 := by
  constructor <;> rfl

/-- C3 amended: after the canonical node list is built, the builder
applies only the size/depth filter (plus the incidental edge-list and
tensor-shape checks) before returning; no forest-shape validation is
performed, so a document passing those checks is returned as a sample
regardless of how many parentless canonical nodes it has. -/
theorem claimC3_amended_no_forest_check (cfg : DataConfig) (ast : List RawNode)
    (st : ParentMap × List CanonNode)
    (h1 : buildNodes cfg.maxTokenParts ast = .ok st)
    (h2 : builtEdges st.2 ≠ [])
    (h3 : isSuitableTree cfg.maxTreeNodes cfg.maxTreeDepth
      (numNodesOfEdges (builtEdges st.2))
      (frontierCount (numNodesOfEdges (builtEdges st.2)) (builtEdges st.2)) = true)
    (h4 : numNodesOfEdges (builtEdges st.2) = st.2.length) :
    getItemTree cfg ast =
      .ok (some ⟨numNodesOfEdges (builtEdges st.2), builtEdges st.2, st.2⟩) := by
  have h3b := h3
  rw [h4] at h3b
  simp [getItemTree, h1, h2, h3, h3b, h4]

/-- Witness for the amended C3: the two-root document is returned as a
sample. -/
theorem claimC3_amended_witness :
    getItemTree ⟨5, none, none⟩ astTwoRoots =
      .ok (some ⟨numNodesOfEdges (builtEdges twoRootsCanon),
        builtEdges twoRootsCanon, twoRootsCanon⟩) :=
  claimC3_amended_no_forest_check ⟨5, none, none⟩ astTwoRoots
    ([(3, 1), (2, 0)], twoRootsCanon) (by decide) (by decide) (by decide) (by decide)

/-- C4: for every document the builder accepts, the canonical node
count equals the number of internal nodes plus, summed over leaves,
`min(#subtokens, max_token_parts)`; moreover each kept subtoken of a
leaf becomes one canonical node and all of them share the leaf's single
parent. -/
theorem claimC4_node_count (cap : Nat) (ast : List RawNode)
    (st : ParentMap × List CanonNode) (h : buildNodes cap ast = .ok st) :
    st.2.length = internalCount ast + leafSubtokenSum cap ast ∧
    ∀ (m : ParentMap) (ns : List CanonNode) (i p : Nat) (node : RawNode),
      node.children = none → lookupMap m i = some p →
      buildStep cap (m, ns) i node =
        .ok (m, ns ++ ((pySplit node.token SEPARATOR).take cap).map
          (fun s => (s, node.typeLabel, some p))) ∧
      ∀ cn ∈ ((pySplit node.token SEPARATOR).take cap).map
          (fun s => (s, node.typeLabel, some p)), cn.2.2 = some p := by
  constructor
  · have hlen := processAux_length cap ast ([], []) 0 st h
    simpa using hlen
  · intro m ns i p node hch hlk
    constructor
    · simp [buildStep, hch, hlk]
    · intro cn hcn
      rcases List.mem_map.mp hcn with ⟨s, _, hs⟩
      rw [← hs]

/-- Witness for C4 on the spec's concrete scenario: 1 internal node
plus min(2, 2) subtokens of the single leaf gives 3 canonical nodes,
and both kept subtokens attach to the leaf's parent 0. -/
theorem claimC4_node_count_witness :
    ([("<EMPTY>", "Root", none), ("a", "Leaf", some 0), ("b", "Leaf", some 0)]
        : List CanonNode).length
      = internalCount astSpecScenario + leafSubtokenSum 2 astSpecScenario ∧
    buildStep 2 ([(1, 0)], [("<EMPTY>", "Root", none)]) 1 ⟨"a|b", "Leaf", none⟩ =
      .ok ([(1, 0)],
        [("<EMPTY>", "Root", none), ("a", "Leaf", some 0), ("b", "Leaf", some 0)]) := by
  have h := claimC4_node_count 2 astSpecScenario
    ([(1, 0)], [("<EMPTY>", "Root", none), ("a", "Leaf", some 0), ("b", "Leaf", some 0)])
    (by decide)
  refine ⟨h.1, ?_⟩
  have h2 := (h.2 [(1, 0)] [("<EMPTY>", "Root", none)] 1 0 ⟨"a|b", "Leaf", none⟩
    rfl (by decide)).1
  exact h2.trans (by decide)

/-- C5: a tree is rejected exactly when a configured limit is exceeded:
`_is_suitable_tree` returns `False` iff `max_tree_nodes` is set and the
node count exceeds it, or `max_tree_depth` is set and the frontier
count exceeds it; in that case `__getitem__` returns no sample (the
tree is excluded, not truncated); a null limit imposes no bound. -/
theorem claimC5_size_depth_filter :
    (∀ (mn md : Option Nat) (n f : Nat),
      isSuitableTree mn md n f = false ↔
        ((∃ m, mn = some m ∧ n > m) ∨ (∃ d, md = some d ∧ f > d))) ∧
    (∀ (cfg : DataConfig) (ast : List RawNode) (st : ParentMap × List CanonNode),
      buildNodes cfg.maxTokenParts ast = .ok st →
      builtEdges st.2 ≠ [] →
      numNodesOfEdges (builtEdges st.2) = st.2.length →
      ((∃ m, cfg.maxTreeNodes = some m ∧ st.2.length > m) ∨
       (∃ d, cfg.maxTreeDepth = some d ∧
          frontierCount st.2.length (builtEdges st.2) > d)) →
      getItemTree cfg ast = .ok none) ∧
    (∀ n f, isSuitableTree none none n f = true) := by
  refine ⟨isSuitableTree_eq_false_iff, ?_, fun n f => rfl⟩
  intro cfg ast st h1 h2 h4 hex
  have hfalse : isSuitableTree cfg.maxTreeNodes cfg.maxTreeDepth
      (numNodesOfEdges (builtEdges st.2))
      (frontierCount (numNodesOfEdges (builtEdges st.2)) (builtEdges st.2)) = false := by
    rw [isSuitableTree_eq_false_iff, h4]
    exact hex
  simp [getItemTree, h1, h2, hfalse]

/-- Witness for C5: the spec's "max_tree_nodes = 1" scenario — the
3-node canonical tree is rejected and no sample is returned — and a
fully null limit accepts any size. -/
theorem claimC5_size_depth_filter_witness :
    getItemTree ⟨2, some 1, none⟩ astSpecScenario = .ok none ∧
    isSuitableTree none none 100 100 = true :=
  ⟨claimC5_size_depth_filter.2.1 ⟨2, some 1, none⟩ astSpecScenario
      ([(1, 0)], [("<EMPTY>", "Root", none), ("a", "Leaf", some 0), ("b", "Leaf", some 0)])
      (by decide) (by decide) (by decide) (Or.inl ⟨1, rfl, by decide⟩),
   claimC5_size_depth_filter.2.2 100 100⟩

/-- C7: an AST node that has a `children` field but carries a token
other than the empty sentinel trips the assert: the whole build of the
sample aborts with an invariant-violation error (no sample, not a
recoverable skip), whatever prefix was already processed. -/
theorem claimC7_internal_token_fatal (cap : Nat) (pre rest : List RawNode)
    (node : RawNode) (cs : List Nat) (st : ParentMap × List CanonNode)
    (hpre : processAux cap ([], []) 0 pre = .ok st)
    (hch : node.children = some cs) (htok : node.token ≠ EMPTY_TOKEN) :
    buildNodes cap (pre ++ node :: rest) = .error .invariantViolation ∧
    ∀ (mn md : Option Nat),
      getItemTree ⟨cap, mn, md⟩ (pre ++ node :: rest) = .error .invariantViolation := by
  have hb : buildNodes cap (pre ++ node :: rest) = .error .invariantViolation := by
    unfold buildNodes
    rw [processAux_append cap pre (node :: rest) ([], []) 0, hpre]
    show processAux cap st (0 + pre.length) (node :: rest) = _
    unfold processAux
    have hs : buildStep cap st (0 + pre.length) node = .error .invariantViolation := by
      simp [buildStep, hch, htok]
    rw [hs]
  exact ⟨hb, fun mn md => by simp [getItemTree, hb]⟩

/-- Witness for C7: a single internal node with token "bad" aborts the
build and the sample. -/
theorem claimC7_internal_token_fatal_witness :
    buildNodes 1 [badTokenNode] = .error .invariantViolation ∧
    getItemTree ⟨1, none, none⟩ [badTokenNode] = .error .invariantViolation := by
  have h := claimC7_internal_token_fatal 1 [] [] badTokenNode [] ([], [])
    rfl rfl (by decide)
  exact ⟨h.1, h.2 none none⟩

end EmbTrees
